import Mathlib

/-!
Verification of the Binding & Action Runtime of the MY_FLOW low-code builder:
a shallow embedding of `src/engine/ExpressionEngine.ts` and
`src/engine/ActionManager.ts`, with theorems settling the specification's
claims about sandboxing, caching, dependency extraction, action execution,
result storage, listener notification and chained execution.

Host JavaScript primitives (the `new Function` parser and executor, `JSON`
parsing/serialisation, `fetch`) are modelled as an abstract `Host` record;
everything else is translated directly from the TypeScript source.
-/

/-- Model of a JavaScript runtime value as far as the runtime manipulates
them: `undefined`, `null`, booleans, (integer) numbers, strings, plain
objects and arrays.  Host-defined closures (the `utils` helpers) are opaque
to this model and need no representation because execution of expression
source text is delegated to the abstract host. -/
inductive JSValue where
  | undef
  | null
  | bool (b : Bool)
  | num (n : Int)
  | str (s : String)
  | obj (fields : List (String × JSValue))
  | arr (elems : List JSValue)

/-- JavaScript truthiness on modelled values (`!x`): `undefined`, `null`,
`false`, `0` and `""` are falsy. -/
def isFalsy : JSValue → Bool
  | .undef => true
  | .null => true
  | .bool b => !b
  | .num n => n == 0
  | .str s => s == ""
  | .obj _ => false
  | .arr _ => false

mutual

/-- JavaScript `String(v)` coercion on modelled values. -/
def jsToString : JSValue → String
  | .undef => "undefined"
  | .null => "null"
  | .bool true => "true"
  | .bool false => "false"
  | .num n => toString n
  | .str s => s
  | .obj _ => "[object Object]"
  | .arr l => jsToStringList l

/-- Array `toString`: elements joined with commas. -/
def jsToStringList : List JSValue → String
  | [] => ""
  | [v] => jsToString v
  | v :: rest => jsToString v ++ "," ++ jsToStringList rest

end

/-- The five-namespace evaluation context of `ExpressionEngine`
(`widgets`, `actions`, `page`, `utils`, `store`), each namespace a
string-keyed record. -/
structure EvaluationContext where
  widgets : List (String × JSValue)
  actions : List (String × JSValue)
  page : List (String × JSValue)
  utils : List (String × JSValue)
  store : List (String × JSValue)

/-- A `Partial<EvaluationContext>`: each top-level namespace optionally
supplied, as taken by `updateContext`. -/
structure PartialContext where
  widgets : Option (List (String × JSValue))
  actions : Option (List (String × JSValue))
  page : Option (List (String × JSValue))
  utils : Option (List (String × JSValue))
  store : Option (List (String × JSValue))

/-- The mutable state of an `ExpressionEngine` instance: its context and its
expression cache (`Map<string, {value, deps}>`; the `deps` component is
always `new Set()` in the source, so the cache is modelled as value-only). -/
structure EngineState where
  context : EvaluationContext
  cache : List (String × JSValue)

/-- Abstract host JavaScript primitives used by the runtime: whether a
source string parses as an expression (`new Function` construction),
execution of a parsed expression against the five bound namespaces, `JSON`
primitives, and the network (`fetch`) used by the `http`/`graphql` actions.
The `http` field receives url, method, headers, optional body and the
timeout config value, and yields either a thrown error message (covering
network failure and timeout abort) or `(ok, status, statusText, parsedData)`.
The `gql` field receives url, raw headers, query and parsed variables and
yields either a thrown message or `(errors?, data)`. -/
structure Host where
  parseOk : String → Bool
  execJS : EvaluationContext → String → Except String JSValue
  jsonStringify : JSValue → String
  jsonParse : String → Except String JSValue
  http : String → String → List (String × String) → Option String → JSValue →
    Except String (Bool × Nat × String × JSValue)
  gql : String → List (String × JSValue) → String → JSValue →
    Except String (Option (List String) × JSValue)

/-- Errors an evaluation can raise: the sandbox denylist hit, a parse
failure of the source text, a runtime error from execution, or a host type
error. -/
inductive EvalError where
  | forbidden (kw : String)
  | syntaxErr
  | typeErr
  | runtime (msg : String)

/-- The `error.message` string of a modelled error, as read back by
`runJS`'s local catch. -/
def errMessage : EvalError → String
  | .forbidden kw => "Forbidden keyword in expression: " ++ kw
  | .syntaxErr => "SyntaxError"
  | .typeErr => "TypeError"
  | .runtime msg => msg

/-- Whether `sub` is a prefix of `l` (character-list version of
`String.startsWith` at a position). -/
def listIsPre : List Char → List Char → Bool
  | [], _ => true
  | _ :: _, [] => false
  | a :: as, b :: bs => a == b && listIsPre as bs

/-- Whether `sub` occurs contiguously anywhere in `l`. -/
def listHasSub (sub : List Char) : List Char → Bool
  | [] => listIsPre sub []
  | s@(_ :: rest) => listIsPre sub s || listHasSub sub rest

/-- JavaScript `haystack.includes(needle)`: substring containment. -/
def strIncludes (haystack needle : String) : Bool :=
  listHasSub needle.data haystack.data

/-- The fixed denylist scanned by `sanitizeExpression`
(ExpressionEngine.ts lines 168-182). -/
def forbiddenKeywords : List String :=
  ["eval", "Function", "constructor", "prototype", "__proto__", "window",
   "document", "global", "process", "require", "import", "fetch", "XMLHttpRequest"]

/-- `ExpressionEngine.sanitizeExpression`: throws
`Forbidden keyword in expression: <kw>` on the first denylisted substring
found, otherwise returns the expression unchanged. -/
def sanitizeExpression (expression : String) : Except String String :=
  match forbiddenKeywords.find? (fun kw => strIncludes expression kw) with
  | some kw => .error kw
  | none => .ok expression

/-- Outcome of one `evaluate` call: the returned value or thrown error, the
engine state afterwards, and whether the compiled sandbox function was
actually invoked (instrumentation for the "never executes" claims). -/
structure EvalOut where
  result : Except EvalError JSValue
  state : EngineState
  executed : Bool

/-- `ExpressionEngine.evaluate(expression, throwOnError)`
(ExpressionEngine.ts lines 102-146).  An empty source returns `''`; a cache
hit returns the stored value; otherwise the source is sanitized (denylist),
compiled (`new Function`, whose parse failure is a thrown SyntaxError) and
executed.  The generated wrapper catches runtime errors: with
`throwOnError = false` it returns `undefined` normally, so that value is
cached; with `throwOnError = true` the error propagates and nothing is
cached.  Errors before execution are rethrown when `throwOnError` and
otherwise turn into a returned `undefined`. -/
def evaluate (h : Host) (st : EngineState) (expression : String) (throwOnError : Bool) : EvalOut :=
  if expression = "" then ⟨.ok (.str ""), st, false⟩
  else
    match st.cache.lookup expression with
    | some v => ⟨.ok v, st, false⟩
    | none =>
      match sanitizeExpression expression with
      | .error kw =>
        if throwOnError then ⟨.error (.forbidden kw), st, false⟩
        else ⟨.ok .undef, st, false⟩
      | .ok _ =>
        if h.parseOk expression then
          match h.execJS st.context expression with
          | .ok v => ⟨.ok v, { st with cache := (expression, v) :: st.cache }, true⟩
          | .error msg =>
            if throwOnError then ⟨.error (.runtime msg), st, true⟩
            else ⟨.ok .undef, { st with cache := (expression, .undef) :: st.cache }, true⟩
        else
          if throwOnError then ⟨.error .syntaxErr, st, false⟩
          else ⟨.ok .undef, st, false⟩

/-- Shallow merge of a partial context into the current one
(`{...this.context, ...context}`): every supplied namespace is
wholesale-replaced, every unsupplied namespace is kept. -/
def mergeContext (c : EvaluationContext) (p : PartialContext) : EvaluationContext :=
  { widgets := p.widgets.getD c.widgets
    actions := p.actions.getD c.actions
    page := p.page.getD c.page
    utils := p.utils.getD c.utils
    store := p.store.getD c.store }

/-- `ExpressionEngine.clearCache`. -/
def clearCache (st : EngineState) : EngineState :=
  { st with cache := [] }

/-- `ExpressionEngine.updateContext` (ExpressionEngine.ts lines 78-84):
shallow-merge then clear the whole cache. -/
def updateContext (st : EngineState) (p : PartialContext) : EngineState :=
  clearCache { st with context := mergeContext st.context p }

/-- JavaScript `String.prototype.trim`: strip leading and trailing
whitespace (list-based so that concrete scans evaluate). -/
def strTrim (s : String) : String :=
  String.mk (((s.data.dropWhile Char.isWhitespace).reverse.dropWhile
    Char.isWhitespace).reverse)

/-- Longest run of characters other than `\x7d`, with the remainder:
the greedy behaviour of the regex fragment matching one-or-more
non-closing-brace characters. -/
def takeNonBrace : List Char → List Char × List Char
  | [] => ([], [])
  | c :: cs =>
    if c = '}' then ([], c :: cs)
    else (c :: (takeNonBrace cs).1, (takeNonBrace cs).2)

/-- Attempt to match the expression-marker regex at the head of the input:
two opening braces, a nonempty run of non-closing-brace characters, two
closing braces.  On success returns the inner source and the remainder after
the whole match (the regex `lastIndex` advance). -/
def matchMarkerAt : List Char → Option (List Char × List Char)
  | c1 :: c2 :: rest =>
    if c1 = '{' ∧ c2 = '{' then
      if (takeNonBrace rest).1 = [] then none
      else if (takeNonBrace rest).2.take 2 = ['}', '}'] then
        some ((takeNonBrace rest).1, (takeNonBrace rest).2.drop 2)
      else none
    else none
  | _ => none

/-- Worker for `extractExpressions`: scan left to right, at each position
try the marker match; on success push the trimmed inner source and continue
after the match, otherwise advance one character.  `fuel` bounds the
recursion and is always at least the input length. -/
def extractAux : Nat → List Char → List String
  | 0, _ => []
  | _ + 1, [] => []
  | fuel + 1, s@(_ :: rest) =>
    match matchMarkerAt s with
    | some (w, r') => strTrim (String.mk w) :: extractAux fuel r'
    | none => extractAux fuel rest

/-- `ExpressionEngine.extractExpressions` (ExpressionEngine.ts lines
90-100): all marker inner sources, trimmed, left to right, duplicates
preserved. -/
def extractExpressions (text : String) : List String :=
  extractAux text.data.length text.data

/-- Worker for `hasExpression`: is there a marker match at any position. -/
def hasAux : Nat → List Char → Bool
  | 0, _ => false
  | _ + 1, [] => false
  | fuel + 1, s@(_ :: rest) =>
    match matchMarkerAt s with
    | some _ => true
    | none => hasAux fuel rest

/-- `ExpressionEngine.hasExpression` (ExpressionEngine.ts lines 193-195):
the marker regex tests positive somewhere in the text. -/
def hasExpression (text : String) : Bool :=
  hasAux text.data.length text.data

/-- Worker for `evaluateTemplate`: `template.replace(regex, cb)` — each
marker is replaced by the evaluation of its trimmed inner source
(`undefined`/`null` render as the empty string, other values through
`String(...)`); non-marker characters pass through.  A thrown evaluation
error aborts the replacement, keeping engine-state mutations made so far. -/
def evalTemplateAux (h : Host) (throwOnError : Bool) :
    Nat → EngineState → List Char → (Except EvalError String) × EngineState
  | 0, st, _ => (.ok "", st)
  | _ + 1, st, [] => (.ok "", st)
  | fuel + 1, st, s@(c :: rest) =>
    match matchMarkerAt s with
    | some (w, r') =>
      let out := evaluate h st (strTrim (String.mk w)) throwOnError
      match out.result with
      | .error e => (.error e, out.state)
      | .ok v =>
        let repl :=
          match v with
          | .undef => ""
          | .null => ""
          | v' => jsToString v'
        match evalTemplateAux h throwOnError fuel out.state r' with
        | (.ok tl, st') => (.ok (repl ++ tl), st')
        | (.error e, st') => (.error e, st')
    | none =>
      match evalTemplateAux h throwOnError fuel st rest with
      | (.ok tl, st') => (.ok (String.mk [c] ++ tl), st')
      | (.error e, st') => (.error e, st')

/-- `ExpressionEngine.evaluateTemplate` (ExpressionEngine.ts lines
148-165): empty template returns `''`; otherwise every marker is replaced
via `evaluate`; a thrown sub-evaluation rethrows when `throwOnError` and
otherwise yields the template unchanged (the source's catch branch). -/
def evaluateTemplate (h : Host) (st : EngineState) (template : String) (throwOnError : Bool) :
    (Except EvalError String) × EngineState :=
  if template = "" then (.ok "", st)
  else
    match evalTemplateAux h throwOnError template.data.length st template.data with
    | (.ok r, st') => (.ok r, st')
    | (.error e, st') =>
      if throwOnError then (.error e, st') else (.ok template, st')

/-- JavaScript word character (`A`-`Z`, `a`-`z`, `0`-`9`, underscore). -/
def wordChar (c : Char) : Bool :=
  c.isAlpha || c.isDigit || c = '_'

/-- Longest run of word characters, with the remainder (the greedy
one-or-more word-character fragment of the dependency regexes). -/
def takeWord : List Char → List Char × List Char
  | [] => ([], [])
  | c :: cs =>
    if wordChar c then (c :: (takeWord cs).1, (takeWord cs).2)
    else ([], c :: cs)

/-- Worker for `getDependencies` for one namespace regex: scan left to
right; wherever the literal `pre` (e.g. `"widgets."`) is followed by at
least one word character, emit `pre ++ <id>` and continue after the match,
otherwise advance one character. -/
def scanRefsAux (pre : List Char) : Nat → List Char → List String
  | 0, _ => []
  | _ + 1, [] => []
  | fuel + 1, s@(_ :: rest) =>
    if listIsPre pre s then
      if (takeWord (s.drop pre.length)).1 = [] then scanRefsAux pre fuel rest
      else
        String.mk (pre ++ (takeWord (s.drop pre.length)).1) ::
          scanRefsAux pre fuel (takeWord (s.drop pre.length)).2
    else scanRefsAux pre fuel rest

/-- All matches of one namespace dependency regex over a source string. -/
def scanRefs (pre : String) (s : String) : List String :=
  scanRefsAux pre.data s.data.length s.data

/-- Deduplication keeping first occurrences (`[...new Set(deps)]`). -/
def dedupAux (seen : List String) : List String → List String
  | [] => []
  | x :: xs => if x ∈ seen then dedupAux seen xs else x :: dedupAux (x :: seen) xs

/-- `ExpressionEngine.getDependencies` (ExpressionEngine.ts lines 197-218):
collect every `widgets.<id>` match, then every `actions.<id>` match, then
every `page.<id>` match, and deduplicate keeping first occurrences. -/
def getDependencies (expression : String) : List String :=
  dedupAux []
    (scanRefs "widgets." expression ++ scanRefs "actions." expression ++
      scanRefs "page." expression)

/-- `ActionResult` (ActionManager.ts lines 3-7): the single normalized
outcome shape; `data`/`error` are optional fields. -/
structure ActionResult where
  success : Bool
  data : Option JSValue
  error : Option String

/-- `ActionDefinition` (ActionManager.ts lines 9-13): identifier, variant
tag (one of the twelve type strings; runtime dispatch is by string, with an
explicit throw on an unknown tag) and variant-specific configuration. -/
structure ActionDefinition where
  id : String
  type : String
  config : List (String × JSValue)

/-- Host-visible effects of action execution.  Listeners are identified by
abstract tokens; invoking a listener, the widget-update / navigation / modal
callbacks, `alert`, the toast log, the clipboard write and the download
click are recorded as events in program order. -/
inductive HostEvent where
  | widgetUpdate (widgetId : JSValue) (updates : List (String × JSValue))
  | navigate (path : String) (queryParams : JSValue) (viaCallback : Bool)
  | modal (modalId : JSValue) (opening : Bool)
  | alertShown (message : String)
  | toastShown (message : String) (toastType : JSValue) (duration : JSValue)
  | clipboardWrite (text : String)
  | fileDownload (url : String) (filename : String)
  | listenerCall (listener : Nat) (result : ActionResult)

/-- State of the `ActionManager` singleton: the registry, the per-id
listener sets, the per-id last results, and whether each of the three
injectable host callbacks has been set. -/
structure AMState where
  actions : List (String × ActionDefinition)
  listeners : List (String × List Nat)
  results : List (String × ActionResult)
  widgetCb : Bool
  navCb : Bool
  modalCb : Bool

/-- Shared world state the executors touch: the singleton expression
engine's state and the `localStorage` backing map. -/
structure World where
  engine : EngineState
  storage : List (String × String)

/-- Remove a key's binding from a string-keyed association list
(`Map.delete` / `localStorage.removeItem`). -/
def removeKey {α : Type} (l : List (String × α)) (k : String) : List (String × α) :=
  l.filter (fun p => p.1 ≠ k)

/-- `Map.set`: bind `k` to `v`, replacing any previous binding. -/
def setKey {α : Type} (l : List (String × α)) (k : String) (v : α) : List (String × α) :=
  (k, v) :: removeKey l k

/-- `ActionManager.registerAction`. -/
def registerAction (st : AMState) (a : ActionDefinition) : AMState :=
  { st with actions := setKey st.actions a.id a }

/-- `ActionManager.unregisterAction`: drops the definition, the listeners
and the last result for the id. -/
def unregisterAction (st : AMState) (actionId : String) : AMState :=
  { st with
    actions := removeKey st.actions actionId
    listeners := removeKey st.listeners actionId
    results := removeKey st.results actionId }

/-- `ActionManager.addListener`: insert into the id's listener set. -/
def addListener (st : AMState) (actionId : String) (fn : Nat) : AMState :=
  match st.listeners.lookup actionId with
  | none => { st with listeners := setKey st.listeners actionId [fn] }
  | some ls =>
    { st with
      listeners := setKey st.listeners actionId (if fn ∈ ls then ls else ls ++ [fn]) }

/-- `ActionManager.removeListener`. -/
def removeListener (st : AMState) (actionId : String) (fn : Nat) : AMState :=
  match st.listeners.lookup actionId with
  | none => st
  | some ls => { st with listeners := setKey st.listeners actionId (ls.filter (· ≠ fn)) }

/-- `ActionManager.getResult` (ActionManager.ts lines 64-66). -/
def getResult (st : AMState) (actionId : String) : Option ActionResult :=
  st.results.lookup actionId

/-- The listener set registered for an id (empty when none). -/
def listenersOf (st : AMState) (actionId : String) : List Nat :=
  (st.listeners.lookup actionId).getD []

/-- `ActionManager.notifyListeners` (ActionManager.ts lines 361-366):
synchronously invoke every listener of the id with the result. -/
def notifyEvents (st : AMState) (actionId : String) (r : ActionResult) : List HostEvent :=
  (listenersOf st actionId).map (fun fn => HostEvent.listenerCall fn r)

/-- Store a result as the id's last known result (`this.results.set`). -/
def setResult (st : AMState) (actionId : String) (r : ActionResult) : AMState :=
  { st with results := setKey st.results actionId r }

/-- Read a config field; an absent field destructures to `undefined`. -/
def cfgGet (config : List (String × JSValue)) (key : String) : JSValue :=
  (config.lookup key).getD JSValue.undef

/-- Read a config field with a destructuring default (the default applies
exactly when the field is `undefined`). -/
def cfgGetD (config : List (String × JSValue)) (key : String) (dflt : JSValue) : JSValue :=
  match cfgGet config key with
  | .undef => dflt
  | v => v

/-- String-typed config fields as the executors consume them (the
TypeScript declarations type these as `string`; other values are modelled
by their string coercion). -/
def strVal : JSValue → String
  | .str s => s
  | v => jsToString v

/-- `evaluateTemplate` at its default `throwOnError = false`, where no
error can escape (the source's catch returns the template itself in that
case, which the fallback branch mirrors). -/
def tmplS (h : Host) (st : EngineState) (s : String) : String × EngineState :=
  match evaluateTemplate h st s false with
  | (.ok r, st') => (r, st')
  | (.error _, st') => (s, st')

/-- Template-resolve a config value: falsy values render as `''` inside
`evaluateTemplate`, strings are template-evaluated, and other truthy values
are modelled by their string coercion. -/
def tmplVal (h : Host) (st : EngineState) (v : JSValue) : String × EngineState :=
  match v with
  | .str s => tmplS h st s
  | v' => if isFalsy v' then ("", st) else (jsToString v', st)

/-- Header resolution loop of `executeHttpAction`: each header value is
coerced with `String(...)` then template-evaluated, threading the engine
state. -/
def evalHeaders (h : Host) : EngineState → List (String × JSValue) →
    List (String × String) × EngineState
  | st, [] => ([], st)
  | st, (k, v) :: rest =>
    let (s, st') := tmplS h st (jsToString v)
    let (tl, st'') := evalHeaders h st' rest
    ((k, s) :: tl, st'')

/-- `ActionManager.executeHttpAction` (ActionManager.ts lines 127-180):
resolve templated url, header values and JSON-stringified body; fetch with
a `Content-Type: application/json` base header; parse by content type
(folded into the host response); non-2xx reports failure with the parsed
body still attached as `data`; fetch/timeout errors are rethrown. -/
def executeHttpAction (h : Host) (w : World) (a : ActionDefinition) :
    (Except String ActionResult) × World × List HostEvent :=
  let url := cfgGet a.config "url"
  let method := cfgGetD a.config "method" (.str "GET")
  let headers := match cfgGetD a.config "headers" (.obj []) with
    | .obj fs => fs
    | _ => []
  let body := cfgGet a.config "body"
  let timeout := cfgGetD a.config "timeout" (.num 30000)
  let (eUrl, st1) := tmplVal h w.engine url
  let (eHeaders, st2) := evalHeaders h st1 headers
  let (eBody, st3) :=
    if isFalsy body then (none, st2)
    else
      let (s, st') := tmplS h st2 (h.jsonStringify body)
      (some s, st')
  let w' := { w with engine := st3 }
  match h.http eUrl (strVal method) (("Content-Type", "application/json") :: eHeaders)
      eBody timeout with
  | .error msg => (.error msg, w', [])
  | .ok (ok, status, statusText, data) =>
    if ok then (.ok ⟨true, some data, none⟩, w', [])
    else
      (.ok ⟨false, some data, some ("HTTP " ++ toString status ++ ": " ++ statusText)⟩,
       w', [])

/-- `ActionManager.executeGraphQLAction` (ActionManager.ts lines 182-215):
resolve templated url and query; variables are JSON-stringified,
template-evaluated and re-parsed (a parse failure throws); the response's
`errors` array maps to failure with comma-joined messages. -/
def executeGraphQLAction (h : Host) (w : World) (a : ActionDefinition) :
    (Except String ActionResult) × World × List HostEvent :=
  let url := cfgGet a.config "url"
  let query := cfgGet a.config "query"
  let varsCfg := cfgGetD a.config "variables" (.obj [])
  let headers := match cfgGetD a.config "headers" (.obj []) with
    | .obj fs => fs
    | _ => []
  let (eUrl, st1) := tmplVal h w.engine url
  let (eQuery, st2) := tmplVal h st1 query
  let (varsJson, st3) := tmplS h st2 (h.jsonStringify varsCfg)
  let w' := { w with engine := st3 }
  match h.jsonParse varsJson with
  | .error msg => (.error msg, w', [])
  | .ok eVars =>
    match h.gql eUrl headers eQuery eVars with
    | .error msg => (.error msg, w', [])
    | .ok (some errs, data) =>
      (.ok ⟨false, some data, some (String.intercalate ", " errs)⟩, w', [])
    | .ok (none, data) => (.ok ⟨true, some data, none⟩, w', [])

/-- Update-field resolution loop of `executeUpdateWidgetAction`: a string
field containing an expression marker is passed — whole, braces included —
to `evaluate` (default `throwOnError = false`, which never throws, so the
error branch is unreachable); every other field passes through literally. -/
def evalUpdates (h : Host) : EngineState → List (String × JSValue) →
    List (String × JSValue) × EngineState
  | st, [] => ([], st)
  | st, (k, v) :: rest =>
    match v with
    | .str s =>
      if hasExpression s then
        let out := evaluate h st s false
        let value := match out.result with
          | .ok v' => v'
          | .error _ => .undef
        let (tl, st') := evalUpdates h out.state rest
        ((k, value) :: tl, st')
      else
        let (tl, st') := evalUpdates h st rest
        ((k, .str s) :: tl, st')
    | v' =>
      let (tl, st') := evalUpdates h st rest
      ((k, v') :: tl, st')

/-- `ActionManager.executeUpdateWidgetAction` (ActionManager.ts lines
217-237): resolve each update field, invoke the widget-update callback when
set (no-op otherwise), and report success with the resolved updates.
`Object.entries` on a non-object `updates` config is modelled as a thrown
type error. -/
def executeUpdateWidgetAction (h : Host) (w : World) (st : AMState) (a : ActionDefinition) :
    (Except String ActionResult) × World × List HostEvent :=
  let widgetId := cfgGet a.config "widgetId"
  match cfgGet a.config "updates" with
  | .obj updates =>
    let (evaluatedUpdates, st') := evalUpdates h w.engine updates
    let events :=
      if st.widgetCb then [HostEvent.widgetUpdate widgetId evaluatedUpdates] else []
    (.ok ⟨true,
        some (.obj [("widgetId", widgetId), ("updates", .obj evaluatedUpdates)]), none⟩,
     { w with engine := st' }, events)
  | _ => (.error "TypeError", w, [])

/-- `ActionManager.executeNavigateAction` (ActionManager.ts lines 239-253):
resolve the templated path; use the navigation callback when set, else fall
back to a direct page navigation; always succeeds. -/
def executeNavigateAction (h : Host) (w : World) (st : AMState) (a : ActionDefinition) :
    (Except String ActionResult) × World × List HostEvent :=
  let path := cfgGet a.config "path"
  let queryParams := cfgGet a.config "queryParams"
  let (ePath, st1) := tmplVal h w.engine path
  (.ok ⟨true, some (.obj [("path", .str ePath)]), none⟩,
   { w with engine := st1 },
   [HostEvent.navigate ePath queryParams st.navCb])

/-- `ActionManager.executeModalAction` (ActionManager.ts lines 255-266):
invoke the modal callback when set; always succeeds. -/
def executeModalAction (w : World) (st : AMState) (a : ActionDefinition) (opening : Bool) :
    (Except String ActionResult) × World × List HostEvent :=
  let modalId := cfgGet a.config "modalId"
  let events := if st.modalCb then [HostEvent.modal modalId opening] else []
  (.ok ⟨true,
      some (.obj [("modalId", modalId),
                  ("action", .str (if opening then "open" else "close"))]), none⟩,
   w, events)

/-- `ActionManager.executeAlertAction` (ActionManager.ts lines 268-278). -/
def executeAlertAction (h : Host) (w : World) (a : ActionDefinition) :
    (Except String ActionResult) × World × List HostEvent :=
  let message := cfgGet a.config "message"
  let (eMsg, st1) := tmplVal h w.engine message
  (.ok ⟨true, some (.obj [("message", .str eMsg)]), none⟩,
   { w with engine := st1 }, [HostEvent.alertShown eMsg])

/-- `ActionManager.executeToastAction` (ActionManager.ts lines 280-290). -/
def executeToastAction (h : Host) (w : World) (a : ActionDefinition) :
    (Except String ActionResult) × World × List HostEvent :=
  let message := cfgGet a.config "message"
  let toastType := cfgGetD a.config "type" (.str "info")
  let duration := cfgGetD a.config "duration" (.num 3000)
  let (eMsg, st1) := tmplVal h w.engine message
  (.ok ⟨true,
      some (.obj [("message", .str eMsg), ("type", toastType), ("duration", duration)]),
      none⟩,
   { w with engine := st1 }, [HostEvent.toastShown eMsg toastType duration])

/-- `ActionManager.executeLocalStorageAction` (ActionManager.ts lines
292-314): `set` JSON-stringifies the value; `get` of a missing (or empty,
hence falsy) stored string yields `null` and otherwise JSON-parses the
stored string (a parse failure throws); `remove` and `clear` mutate the
store; an unknown operation throws explicitly. -/
def executeLocalStorageAction (h : Host) (w : World) (a : ActionDefinition) :
    (Except String ActionResult) × World × List HostEvent :=
  let operation := cfgGet a.config "operation"
  let key := cfgGet a.config "key"
  let value := cfgGet a.config "value"
  match operation with
  | .str "set" =>
    (.ok ⟨true, some (.obj [("key", key), ("value", value)]), none⟩,
     { w with storage := setKey w.storage (jsToString key) (h.jsonStringify value) }, [])
  | .str "get" =>
    (match w.storage.lookup (jsToString key) with
     | none => (.ok ⟨true, some .null, none⟩, w, [])
     | some s =>
       if s = "" then (.ok ⟨true, some .null, none⟩, w, [])
       else
         match h.jsonParse s with
         | .ok v => (.ok ⟨true, some v, none⟩, w, [])
         | .error msg => (.error msg, w, []))
  | .str "remove" =>
    (.ok ⟨true, some (.obj [("key", key)]), none⟩,
     { w with storage := removeKey w.storage (jsToString key) }, [])
  | .str "clear" => (.ok ⟨true, none, none⟩, { w with storage := [] }, [])
  | op => (.error ("Unknown localStorage operation: " ++ jsToString op), w, [])

/-- `ActionManager.executeCopyToClipboardAction` (ActionManager.ts lines
316-326): resolve the templated text and write it to the clipboard (the
unawaited write cannot fail synchronously); always succeeds. -/
def executeCopyToClipboardAction (h : Host) (w : World) (a : ActionDefinition) :
    (Except String ActionResult) × World × List HostEvent :=
  let text := cfgGet a.config "text"
  let (eText, st1) := tmplVal h w.engine text
  (.ok ⟨true, some (.obj [("text", .str eText)]), none⟩,
   { w with engine := st1 }, [HostEvent.clipboardWrite eText])

/-- `ActionManager.executeDownloadFileAction` (ActionManager.ts lines
328-342). -/
def executeDownloadFileAction (h : Host) (w : World) (a : ActionDefinition) :
    (Except String ActionResult) × World × List HostEvent :=
  let url := cfgGet a.config "url"
  let filename := cfgGet a.config "filename"
  let (eUrl, st1) := tmplVal h w.engine url
  let (eFilename, st2) := tmplVal h st1 filename
  (.ok ⟨true, some (.obj [("url", .str eUrl), ("filename", .str eFilename)]), none⟩,
   { w with engine := st2 }, [HostEvent.fileDownload eUrl eFilename])

/-- `ActionManager.executeRunJSAction` (ActionManager.ts lines 344-359):
evaluate `config.code` with `throwOnError = true`; a thrown sandbox or
runtime error is caught locally and reported as a failed result (it never
escapes the executor). -/
def executeRunJSAction (h : Host) (w : World) (a : ActionDefinition) :
    (Except String ActionResult) × World × List HostEvent :=
  let code := cfgGet a.config "code"
  let out := evaluate h w.engine (strVal code) true
  let w' := { w with engine := out.state }
  match out.result with
  | .ok v => (.ok ⟨true, some v, none⟩, w', [])
  | .error e => (.ok ⟨false, none, some (errMessage e)⟩, w', [])

/-- `ActionManager.executeAction` (ActionManager.ts lines 96-125): dispatch
by the variant tag; an unknown tag throws.  The `params` argument of `run`
is received and ignored by every executor in the source, so it is not
threaded further. -/
def executeAction (h : Host) (w : World) (st : AMState) (a : ActionDefinition) :
    (Except String ActionResult) × World × List HostEvent :=
  match a.type with
  | "http" => executeHttpAction h w a
  | "graphql" => executeGraphQLAction h w a
  | "updateWidget" => executeUpdateWidgetAction h w st a
  | "navigate" => executeNavigateAction h w st a
  | "openModal" => executeModalAction w st a true
  | "closeModal" => executeModalAction w st a false
  | "showAlert" => executeAlertAction h w a
  | "showToast" => executeToastAction h w a
  | "localStorage" => executeLocalStorageAction h w a
  | "copyToClipboard" => executeCopyToClipboardAction h w a
  | "downloadFile" => executeDownloadFileAction h w a
  | "runJS" => executeRunJSAction h w a
  | t => (.error ("Unknown action type: " ++ t), w, [])

/-- Outcome of one `run` call: the returned result, the world and manager
states afterwards, and the host effects in program order. -/
structure RunOut where
  result : ActionResult
  world : World
  state : AMState
  events : List HostEvent

/-- `ActionManager.run` (ActionManager.ts lines 68-94): an unregistered id
yields the `Action not found` failure, which is notified but *not* stored;
a registered action's executor outcome — normal or thrown — is normalized
into an `ActionResult`, stored as the last result, and notified to every
listener of the id before `run` returns it. -/
def run (h : Host) (w : World) (st : AMState) (actionId : String) : RunOut :=
  match st.actions.lookup actionId with
  | none =>
    let result : ActionResult := ⟨false, none, some ("Action not found: " ++ actionId)⟩
    ⟨result, w, st, notifyEvents st actionId result⟩
  | some action =>
    match executeAction h w st action with
    | (.ok result, w', evs) =>
      ⟨result, w', setResult st actionId result, evs ++ notifyEvents st actionId result⟩
    | (.error msg, w', evs) =>
      let result : ActionResult := ⟨false, none, some msg⟩
      ⟨result, w', setResult st actionId result, evs ++ notifyEvents st actionId result⟩

/-- Outcome of a chain (or of a full sequential run): the ordered results,
final states and the concatenated host effects. -/
structure ChainOut where
  results : List ActionResult
  world : World
  state : AMState
  events : List HostEvent

/-- `ActionManager.runActionChain` (ActionManager.ts lines 368-381): run
the ids strictly sequentially, appending each result, and break out of the
loop at the first unsuccessful result. -/
def runActionChain (h : Host) : World → AMState → List String → ChainOut
  | w, st, [] => ⟨[], w, st, []⟩
  | w, st, actionId :: rest =>
    let out := run h w st actionId
    if out.result.success then
      let tail := runActionChain h out.world out.state rest
      ⟨out.result :: tail.results, tail.world, tail.state, out.events ++ tail.events⟩
    else ⟨[out.result], out.world, out.state, out.events⟩

/-- Reference sequential runner with no early stop: every id is run in
order, threading the states.  Used to state what the chain's short-circuit
behaviour amounts to. -/
def seqRunAll (h : Host) : World → AMState → List String → ChainOut
  | w, st, [] => ⟨[], w, st, []⟩
  | w, st, actionId :: rest =>
    let out := run h w st actionId
    let tail := seqRunAll h out.world out.state rest
    ⟨out.result :: tail.results, tail.world, tail.state, out.events ++ tail.events⟩

/-- Fresh engine state as built by the `ExpressionEngine` constructor; the
host-defined `utils` closures are opaque to the model, so the namespace
starts empty here. -/
def engineInit : EngineState :=
  ⟨⟨[], [], [], [], []⟩, []⟩

/-- A benign concrete host: everything parses, execution returns
`undefined`, the network always fails.  Used to instantiate
universally-quantified theorems on concrete inputs. -/
def someHost : Host :=
  { parseOk := fun _ => true
    execJS := fun _ _ => .ok .undef
    jsonStringify := fun _ => "null"
    jsonParse := fun _ => .ok .null
    http := fun _ _ _ _ _ => .error "network error"
    gql := fun _ _ _ _ => .error "network error" }

/-- A host whose execution of any source reads `widgets.a` from the
context, making results context-sensitive. -/
def ctxHost : Host :=
  { someHost with execJS := fun ctx _ => .ok ((ctx.widgets.lookup "a").getD .undef) }

/-- A host on which every execution throws a runtime error. -/
def errHost : Host :=
  { someHost with execJS := fun _ _ => .error "boom" }

/-- Fresh world state. -/
def worldInit : World :=
  ⟨engineInit, []⟩

/-- Fresh `ActionManager` state as built by its constructor. -/
def amInit : AMState :=
  ⟨[], [], [], false, false, false⟩

/-- Manager state with no registered actions but one listener on `"x"`. -/
def c2ListenerState : AMState :=
  ⟨[], [("x", [3])], [], false, false, false⟩

/-- A `localStorage` action whose configured sub-operation is unknown, so
its executor throws. -/
def c3Action : ActionDefinition :=
  ⟨"ls", "localStorage", [("operation", .str "frobnicate")]⟩

/-- Manager state with `c3Action` registered and one listener on it. -/
def c3State : AMState :=
  ⟨[("ls", c3Action)], [("ls", [7])], [], false, false, false⟩

/-- A toast action that always succeeds. -/
def c4ActionA : ActionDefinition :=
  ⟨"a", "showToast", [("message", .str "A ran")]⟩

/-- A failing `localStorage` action (unknown sub-operation). -/
def c4ActionB : ActionDefinition :=
  ⟨"b", "localStorage", [("operation", .str "bogus")]⟩

/-- Another toast action that would succeed if ever run. -/
def c4ActionC : ActionDefinition :=
  ⟨"c", "showToast", [("message", .str "C ran")]⟩

/-- Manager state with the three chain actions registered. -/
def c4State : AMState :=
  ⟨[("a", c4ActionA), ("b", c4ActionB), ("c", c4ActionC)], [], [], false, false, false⟩

/-- Engine start state for the context-update scenario:
`widgets.a = 1`. -/
def c6Start : EngineState :=
  ⟨⟨[("a", .num 1)], [], [], [], []⟩, []⟩

/-- Partial context replacing the `widgets` namespace with `a = 2`. -/
def c6Partial : PartialContext :=
  ⟨some [("a", .num 2)], none, none, none, none⟩

/-- Host for the `updateWidget` end-to-end scenario.  Its parser mirrors
the JavaScript fact that a brace cannot begin a parenthesized expression:
any source containing `\x7b` is a SyntaxError (in particular the raw
marker text the executor passes in), while `widgets.input1.value` parses
and executes to the widget field. -/
def c7Host : Host :=
  { someHost with
    parseOk := fun s => !s.data.contains '{'
    execJS := fun ctx e =>
      if e = "widgets.input1.value" then
        .ok (match ctx.widgets.lookup "input1" with
          | some (.obj fs) => (fs.lookup "value").getD .undef
          | _ => .undef)
      else .error "unsupported" }

/-- The claim's `updateWidget` action: update `w1`'s `label` from the
expression marker over `widgets.input1.value`. -/
def c7Action : ActionDefinition :=
  ⟨"setLabel", "updateWidget",
   [("widgetId", .str "w1"),
    ("updates", .obj [("label", .str "\x7b\x7b widgets.input1.value \x7d\x7d")])]⟩

/-- Manager state with `c7Action` registered and the widget-update callback
wired. -/
def c7State : AMState :=
  ⟨[("setLabel", c7Action)], [], [], true, false, false⟩

/-- World whose context holds `widgets.input1.value = "Hi"`. -/
def c7World : World :=
  ⟨⟨⟨[("input1", .obj [("value", .str "Hi")])], [], [], [], []⟩, []⟩, []⟩

/-- Pointwise statement of what `updateContext` must do: clear the whole
cache, wholesale-replace every supplied namespace and keep every unsupplied
one. -/
def MergeSpec (st : EngineState) (p : PartialContext) : Prop :=
  (updateContext st p).cache = [] ∧
  (∀ x, p.widgets = some x → (updateContext st p).context.widgets = x) ∧
  (p.widgets = none → (updateContext st p).context.widgets = st.context.widgets) ∧
  (∀ x, p.actions = some x → (updateContext st p).context.actions = x) ∧
  (p.actions = none → (updateContext st p).context.actions = st.context.actions) ∧
  (∀ x, p.page = some x → (updateContext st p).context.page = x) ∧
  (p.page = none → (updateContext st p).context.page = st.context.page) ∧
  (∀ x, p.utils = some x → (updateContext st p).context.utils = x) ∧
  (p.utils = none → (updateContext st p).context.utils = st.context.utils) ∧
  (∀ x, p.store = some x → (updateContext st p).context.store = x) ∧
  (p.store = none → (updateContext st p).context.store = st.context.store)

/-- Looking up the key just set yields the stored value. -/
theorem lookup_setKey_self {α : Type} (l : List (String × α)) (k : String) (v : α) :
    (setKey l k v).lookup k = some v := by
  simp [setKey, List.lookup]

/-- A nonempty substring cannot occur in the empty string. -/
theorem strIncludes_empty (needle : String) (hne : needle ≠ "")
    (hsub : strIncludes "" needle = true) : False := by
  have hdata : needle.data ≠ [] := by
    intro hd
    apply hne
    cases needle with
    | mk l =>
      have hl : l = [] := hd
      subst hl
      rfl
  cases hk : needle.data with
  | nil => exact hdata hk
  | cons c cs =>
    rw [strIncludes, hk] at hsub
    simp [listHasSub, listIsPre] at hsub

/-- Inversion of `evaluate`: execution was actually invoked only when the
source is nonempty, uncached, sanitizer-clean and parseable. -/
theorem evaluate_executed_inv (h : Host) (st : EngineState) (e : String) (t : Bool)
    (hx : (evaluate h st e t).executed = true) :
    e ≠ "" ∧ st.cache.lookup e = none ∧ sanitizeExpression e = .ok e ∧
      h.parseOk e = true := by
  by_cases he : e = ""
  · simp [evaluate, he] at hx
  cases hc : st.cache.lookup e with
  | some v => simp [evaluate, he, hc] at hx
  | none =>
    cases hfind : forbiddenKeywords.find? (fun kw => strIncludes e kw) with
    | some kw =>
      have hs : sanitizeExpression e = .error kw := by
        rw [sanitizeExpression, hfind]
      cases t <;> simp [evaluate, he, hc, hs] at hx
    | none =>
      have hs : sanitizeExpression e = .ok e := by
        rw [sanitizeExpression, hfind]
      by_cases hp : h.parseOk e
      · exact ⟨he, by simp [hc], hs, by simpa using hp⟩
      · cases t <;> simp [evaluate, he, hc, hs, hp] at hx

/-- `evaluate` never changes the engine's context, only its cache. -/
theorem evaluate_context_const (h : Host) (st : EngineState) (e : String) (t : Bool) :
    (evaluate h st e t).state.context = st.context := by
  by_cases he : e = ""
  · simp [evaluate, he]
  cases hc : st.cache.lookup e with
  | some v => simp [evaluate, he, hc]
  | none =>
    cases hs : sanitizeExpression e with
    | error kw => cases t <;> simp [evaluate, he, hc, hs]
    | ok e' =>
      by_cases hp : h.parseOk e
      · cases hx : h.execJS st.context e with
        | ok v => simp [evaluate, he, hc, hs, hp, hx]
        | error msg => cases t <;> simp [evaluate, he, hc, hs, hp, hx]
      · cases t <;> simp [evaluate, he, hc, hs, hp]

/-- C1.  Every expression containing a denylisted substring fails the
sanitizer before any execution: with `throwOnError = true` a
`ForbiddenKeyword` error is thrown to the caller, with
`throwOnError = false` the call returns the `undefined` sentinel; in both
cases the sandboxed execution is never invoked and the engine state —
in particular the cache — is unchanged, so nothing is cached for that
string. -/
theorem c1_forbidden_blocks (h : Host) (st : EngineState) (e kw : String)
    (hkw : kw ∈ forbiddenKeywords) (hsub : strIncludes e kw = true)
    (hc : st.cache.lookup e = none) :
    (∃ kw', evaluate h st e true = ⟨.error (.forbidden kw'), st, false⟩) ∧
      evaluate h st e false = ⟨.ok .undef, st, false⟩ := by
  have hkwne : kw ≠ "" := by
    have hall : ∀ k ∈ forbiddenKeywords, k ≠ "" := by decide
    exact hall kw hkw
  have hne : e ≠ "" := by
    intro he
    exact strIncludes_empty kw hkwne (he ▸ hsub)
  have hfind : ∃ kw',
      forbiddenKeywords.find? (fun k => strIncludes e k) = some kw' := by
    cases hf : forbiddenKeywords.find? (fun k => strIncludes e k) with
    | some kw' => exact ⟨kw', rfl⟩
    | none =>
      exact absurd hsub (by simpa using List.find?_eq_none.mp hf kw hkw)
  obtain ⟨kw', hf⟩ := hfind
  have hs : sanitizeExpression e = .error kw' := by
    rw [sanitizeExpression, hf]
  exact ⟨⟨kw', by simp [evaluate, hne, hc, hs]⟩, by simp [evaluate, hne, hc, hs]⟩

/-- Witness for C1 at the concrete denylisted expression `"eval"` on a fresh
engine. -/
theorem c1_witness :
    ("eval" ∈ forbiddenKeywords ∧ strIncludes "eval" "eval" = true ∧
      engineInit.cache.lookup "eval" = none) ∧
    ((∃ kw', evaluate someHost engineInit "eval" true =
        ⟨.error (.forbidden kw'), engineInit, false⟩) ∧
      evaluate someHost engineInit "eval" false = ⟨.ok .undef, engineInit, false⟩) :=
  ⟨⟨by decide, by decide, rfl⟩,
    c1_forbidden_blocks someHost engineInit "eval" "eval" (by decide) (by decide) rfl⟩

/-- Evaluation on an empty-cache state with clean, parseable source returns
exactly what the host execution returns. -/
theorem evaluate_fresh (h : Host) (st : EngineState) (e : String) (v : JSValue)
    (hne : e ≠ "") (hcc : st.cache = []) (hs : sanitizeExpression e = .ok e)
    (hp : h.parseOk e = true) (hx : h.execJS st.context e = .ok v) :
    (evaluate h st e false).result = .ok v := by
  simp [evaluate, hne, hcc, hs, hp, hx, List.lookup]

/-- C5.  A successful evaluation is cached under the exact source text: if
the first call actually executed and returned a value, that value sits in
the cache, and a second call with the same string returns the identical
value with the same state and without invoking the sandboxed execution
again — a side-effecting utility inside the expression runs at most once
per distinct expression string. -/
theorem c5_cache_hit (h : Host) (st : EngineState) (e : String) (v : JSValue)
    (hexec : (evaluate h st e false).executed = true)
    (hres : (evaluate h st e false).result = .ok v) :
    (evaluate h st e false).state.cache.lookup e = some v ∧
    evaluate h (evaluate h st e false).state e false =
      ⟨.ok v, (evaluate h st e false).state, false⟩ := by
  obtain ⟨hne, hc, hs, hp⟩ := evaluate_executed_inv h st e false hexec
  cases hx : h.execJS st.context e with
  | ok v0 =>
    have he1 : evaluate h st e false =
        ⟨.ok v0, ⟨st.context, (e, v0) :: st.cache⟩, true⟩ := by
      simp [evaluate, hne, hc, hs, hp, hx]
    rw [he1] at hres
    have hv : v0 = v := by simpa using hres
    subst hv
    rw [he1]
    exact ⟨by simp [List.lookup], by simp [evaluate, hne, List.lookup]⟩
  | error msg =>
    have he1 : evaluate h st e false =
        ⟨.ok .undef, ⟨st.context, (e, .undef) :: st.cache⟩, true⟩ := by
      simp [evaluate, hne, hc, hs, hp, hx]
    rw [he1] at hres
    have hv : JSValue.undef = v := by simpa using hres
    subst hv
    rw [he1]
    exact ⟨by simp [List.lookup], by simp [evaluate, hne, List.lookup]⟩

/-- Witness for C5: on a fresh engine, `"1 + 1"` executes once, is cached,
and the second call returns the cached value without executing. -/
theorem c5_witness :
    ((evaluate someHost engineInit "1 + 1" false).executed = true ∧
      (evaluate someHost engineInit "1 + 1" false).result = .ok .undef) ∧
    ((evaluate someHost engineInit "1 + 1" false).state.cache.lookup "1 + 1" =
        some .undef ∧
      evaluate someHost (evaluate someHost engineInit "1 + 1" false).state "1 + 1" false =
        ⟨.ok .undef, (evaluate someHost engineInit "1 + 1" false).state, false⟩) :=
  ⟨⟨rfl, rfl⟩, c5_cache_hit someHost engineInit "1 + 1" .undef rfl rfl⟩

/-- C6.  `updateContext` shallow-merges the supplied partial context —
every supplied top-level namespace wholesale-replaced, every unsupplied one
kept — and unconditionally clears the entire expression cache; hence
evaluating the same expression before and after a context update yields
the respective execution results under the old and the new context, which
differ whenever those values differ. -/
theorem c6_update_context (h : Host) (st : EngineState) (p : PartialContext)
    (e : String) (v1 v2 : JSValue)
    (hexec : (evaluate h st e false).executed = true)
    (hres : (evaluate h st e false).result = .ok v1)
    (hx2 : h.execJS (mergeContext st.context p) e = .ok v2) :
    (∀ (st' : EngineState) (p' : PartialContext), MergeSpec st' p') ∧
    (evaluate h (updateContext (evaluate h st e false).state p) e false).result = .ok v2 ∧
    (v1 ≠ v2 →
      (evaluate h (updateContext (evaluate h st e false).state p) e false).result ≠
        (evaluate h st e false).result) := by
  obtain ⟨hne, hc, hs, hp⟩ := evaluate_executed_inv h st e false hexec
  have hctx : (evaluate h st e false).state.context = st.context :=
    evaluate_context_const h st e false
  have hctx2 : (updateContext (evaluate h st e false).state p).context =
      mergeContext st.context p := by
    rw [show (updateContext (evaluate h st e false).state p).context =
        mergeContext (evaluate h st e false).state.context p from rfl, hctx]
  have hafter :
      (evaluate h (updateContext (evaluate h st e false).state p) e false).result =
        .ok v2 :=
    evaluate_fresh h _ e v2 hne rfl hs hp (by rw [hctx2]; exact hx2)
  refine ⟨?_, hafter, ?_⟩
  · intro st' p'
    refine ⟨rfl, ?_, ?_, ?_, ?_, ?_, ?_, ?_, ?_, ?_, ?_⟩ <;>
      first
        | (intro x hx'; simp [updateContext, clearCache, mergeContext, hx'])
        | (intro hx'; simp [updateContext, clearCache, mergeContext, hx'])
  · intro hv hcontra
    rw [hafter, hres] at hcontra
    exact hv (by simpa using hcontra.symm)

/-- Witness for C6: `widgets.a` evaluates to `1`, the context update
replaces `widgets` so that `a = 2`, and re-evaluation yields `2` — a
different result. -/
theorem c6_witness :
    ((evaluate ctxHost c6Start "widgets.a" false).executed = true ∧
      (evaluate ctxHost c6Start "widgets.a" false).result = .ok (.num 1) ∧
      ctxHost.execJS (mergeContext c6Start.context c6Partial) "widgets.a" =
        .ok (.num 2)) ∧
    ((∀ (st' : EngineState) (p' : PartialContext), MergeSpec st' p') ∧
      (evaluate ctxHost
          (updateContext (evaluate ctxHost c6Start "widgets.a" false).state c6Partial)
          "widgets.a" false).result = .ok (.num 2) ∧
      (JSValue.num 1 ≠ JSValue.num 2 →
        (evaluate ctxHost
            (updateContext (evaluate ctxHost c6Start "widgets.a" false).state c6Partial)
            "widgets.a" false).result ≠
          (evaluate ctxHost c6Start "widgets.a" false).result)) :=
  ⟨⟨rfl, rfl, rfl⟩,
    c6_update_context ctxHost c6Start c6Partial "widgets.a" (.num 1) (.num 2) rfl rfl rfl⟩

/-- C9.  With `throwOnError = false`, an expression that passes the
denylist but whose execution raises a runtime error evaluates to
`undefined`, and that `undefined` is stored in the cache under the source
text, so a subsequent call returns the cached `undefined` without
re-executing. -/
theorem c9_runtime_error_cached (h : Host) (st : EngineState) (e msg : String)
    (hne : e ≠ "") (hc : st.cache.lookup e = none)
    (hs : sanitizeExpression e = .ok e) (hp : h.parseOk e = true)
    (hx : h.execJS st.context e = .error msg) :
    evaluate h st e false =
      ⟨.ok .undef, ⟨st.context, (e, .undef) :: st.cache⟩, true⟩ ∧
    evaluate h ⟨st.context, (e, .undef) :: st.cache⟩ e false =
      ⟨.ok .undef, ⟨st.context, (e, .undef) :: st.cache⟩, false⟩ := by
  exact ⟨by simp [evaluate, hne, hc, hs, hp, hx],
    by simp [evaluate, hne, List.lookup]⟩

/-- Witness for C9 on the always-throwing host at the expression
`"x.y"`. -/
theorem c9_witness :
    (("x.y" : String) ≠ "" ∧ engineInit.cache.lookup "x.y" = none ∧
      sanitizeExpression "x.y" = .ok "x.y" ∧ errHost.parseOk "x.y" = true ∧
      errHost.execJS engineInit.context "x.y" = .error "boom") ∧
    (evaluate errHost engineInit "x.y" false =
        ⟨.ok .undef, ⟨engineInit.context, [("x.y", .undef)]⟩, true⟩ ∧
      evaluate errHost ⟨engineInit.context, [("x.y", .undef)]⟩ "x.y" false =
        ⟨.ok .undef, ⟨engineInit.context, [("x.y", .undef)]⟩, false⟩) :=
  ⟨⟨by decide, rfl, rfl, rfl, rfl⟩,
    c9_runtime_error_cached errHost engineInit "x.y" "boom" (by decide) rfl rfl rfl rfl⟩

/-- Counterexample to C2 as stated: running an unregistered id on a fresh
manager produces the `Action not found` failure, yet `getResult` afterwards
returns nothing — the result was never stored, contradicting the claim that
`getResult` returns this exact result. -/
theorem c2_counterexample :
    (run someHost worldInit amInit "missing").result =
      ⟨false, none, some "Action not found: missing"⟩ ∧
    getResult (run someHost worldInit amInit "missing").state "missing" = none ∧
    getResult (run someHost worldInit amInit "missing").state "missing" ≠
      some (run someHost worldInit amInit "missing").result := by
  refine ⟨rfl, rfl, ?_⟩
  intro hcontra
  have hnone : getResult (run someHost worldInit amInit "missing").state "missing" =
      none := rfl
  rw [hnone] at hcontra
  exact Option.noConfusion hcontra

/-- C2 (amended).  `run` on an identifier with no registered definition
returns `{success:false, error:"Action not found: <id>"}` without throwing
(the model is total) and notifies the listeners registered for the id with
that result, but it does **not** store the result: the manager state — in
particular the results map read by `getResult` — is unchanged. -/
theorem c2_not_found (h : Host) (w : World) (st : AMState) (actionId : String)
    (habs : st.actions.lookup actionId = none) :
    run h w st actionId =
      ⟨⟨false, none, some ("Action not found: " ++ actionId)⟩, w, st,
        notifyEvents st actionId
          ⟨false, none, some ("Action not found: " ++ actionId)⟩⟩ ∧
    getResult (run h w st actionId).state actionId = getResult st actionId := by
  have hrun : run h w st actionId =
      ⟨⟨false, none, some ("Action not found: " ++ actionId)⟩, w, st,
        notifyEvents st actionId
          ⟨false, none, some ("Action not found: " ++ actionId)⟩⟩ := by
    simp [run, habs]
  exact ⟨hrun, by rw [hrun]⟩

/-- Witness for the amended C2: the unregistered id `"x"` with one listener
registered; the listener is called with the failure and the state is
untouched. -/
theorem c2_witness :
    c2ListenerState.actions.lookup "x" = none ∧
    (run someHost worldInit c2ListenerState "x" =
      ⟨⟨false, none, some ("Action not found: " ++ "x")⟩, worldInit, c2ListenerState,
        notifyEvents c2ListenerState "x"
          ⟨false, none, some ("Action not found: " ++ "x")⟩⟩ ∧
      getResult (run someHost worldInit c2ListenerState "x").state "x" =
        getResult c2ListenerState "x") :=
  ⟨rfl, c2_not_found someHost worldInit c2ListenerState "x" rfl⟩

/-- C3.  For a registered action, `run` never lets a variant-level
exception escape (the model is total): a thrown executor error is
normalized into `{success:false, error:<message>}`, a normal executor
result is passed through, the final result is stored as the action's last
known result (`getResult` returns it), and the events are exactly the
executor's effects followed by one synchronous notification of every
registered listener of the id with the final result, all before `run`
returns it. -/
theorem c3_run_normalizes (h : Host) (w : World) (st : AMState) (actionId : String)
    (a : ActionDefinition) (hreg : st.actions.lookup actionId = some a) :
    ∃ r, (run h w st actionId).result = r ∧
      (∀ msg, (executeAction h w st a).1 = .error msg → r = ⟨false, none, some msg⟩) ∧
      (∀ r0, (executeAction h w st a).1 = .ok r0 → r = r0) ∧
      getResult (run h w st actionId).state actionId = some r ∧
      (run h w st actionId).events =
        (executeAction h w st a).2.2 ++ notifyEvents st actionId r := by
  rcases hex : executeAction h w st a with ⟨exr, w', evs⟩
  cases exr with
  | ok r0 =>
    refine ⟨r0, ?_, ?_, ?_, ?_, ?_⟩
    · simp [run, hreg, hex]
    · intro msg hmsg
      exact absurd hmsg (by simp)
    · intro r1 hr1
      simpa using hr1
    · simp [run, hreg, hex, getResult, setResult, lookup_setKey_self]
    · simp [run, hreg, hex]
  | error msg0 =>
    refine ⟨⟨false, none, some msg0⟩, ?_, ?_, ?_, ?_, ?_⟩
    · simp [run, hreg, hex]
    · intro msg hmsg
      simp at hmsg
      rw [hmsg]
    · intro r1 hr1
      exact absurd hr1 (by simp)
    · simp [run, hreg, hex, getResult, setResult, lookup_setKey_self]
    · simp [run, hreg, hex]

/-- Witness for C3: the registered `localStorage` action with the unknown
sub-operation `"frobnicate"`; its executor throws and `run` normalizes,
stores and notifies the failure. -/
theorem c3_witness :
    c3State.actions.lookup "ls" = some c3Action ∧
    (∃ r, (run someHost worldInit c3State "ls").result = r ∧
      (∀ msg, (executeAction someHost worldInit c3State c3Action).1 = .error msg →
        r = ⟨false, none, some msg⟩) ∧
      (∀ r0, (executeAction someHost worldInit c3State c3Action).1 = .ok r0 → r = r0) ∧
      getResult (run someHost worldInit c3State "ls").state "ls" = some r ∧
      (run someHost worldInit c3State "ls").events =
        (executeAction someHost worldInit c3State c3Action).2.2 ++
          notifyEvents c3State "ls" r) :=
  ⟨rfl, c3_run_normalizes someHost worldInit c3State "ls" c3Action rfl⟩

/-- The full sequential runner produces one result per id. -/
theorem seqRunAll_length (h : Host) :
    ∀ (ids : List String) (w : World) (st : AMState),
      (seqRunAll h w st ids).results.length = ids.length := by
  intro ids
  induction ids with
  | nil => intro w st; rfl
  | cons actionId rest ih =>
    intro w st
    simp [seqRunAll, ih]

/-- C4.  `runActionChain` runs a prefix of the ids strictly sequentially
(its whole outcome — results, final states and events — equals that of the
plain sequential runner on that prefix, so actions after it are never
invoked), every result before the last one succeeds, exactly one result is
produced per id of the prefix, and whenever ids remain unrun the last
produced result is a failure: the chain stops at the first
`success:false` result and returns the results up to and including it. -/
theorem c4_chain_short_circuits (h : Host) (w : World) (st : AMState)
    (ids : List String) :
    ∃ pre post,
      ids = pre ++ post ∧
      runActionChain h w st ids = seqRunAll h w st pre ∧
      (runActionChain h w st ids).results.length = pre.length ∧
      (∀ r ∈ (runActionChain h w st ids).results.dropLast, r.success = true) ∧
      (post = [] ∨
        ∃ r, (runActionChain h w st ids).results.getLast? = some r ∧
          r.success = false) := by
  induction ids generalizing w st with
  | nil => exact ⟨[], [], rfl, rfl, rfl, by simp [runActionChain], Or.inl rfl⟩
  | cons actionId rest ih =>
    by_cases hs : (run h w st actionId).result.success = true
    · obtain ⟨pre, post, hsplit, hchain, hlen, hall, hlast⟩ :=
        ih (run h w st actionId).world (run h w st actionId).state
      have hchain' : runActionChain h w st (actionId :: rest) =
          seqRunAll h w st (actionId :: pre) := by
        simp [runActionChain, seqRunAll, hs, hchain]
      refine ⟨actionId :: pre, post, by simp [hsplit], hchain', ?_, ?_, ?_⟩
      · rw [hchain']
        exact seqRunAll_length h (actionId :: pre) w st
      · rw [hchain']
        have hres : (seqRunAll h w st (actionId :: pre)).results =
            (run h w st actionId).result ::
              (seqRunAll h (run h w st actionId).world
                (run h w st actionId).state pre).results := by
          simp [seqRunAll]
        rw [hres, ← hchain]
        intro r hr
        cases htl : (runActionChain h (run h w st actionId).world
            (run h w st actionId).state rest).results with
        | nil => simp [htl, List.dropLast] at hr
        | cons b bs =>
          rw [htl] at hr
          rcases (by simpa [List.dropLast] using hr : r = (run h w st actionId).result ∨
              r ∈ (b :: bs).dropLast) with hr' | hr'
          · rw [hr']; exact hs
          · exact hall r (htl ▸ hr')
      · rcases hlast with hpost | ⟨rfail, hget, hfail⟩
        · exact Or.inl hpost
        · refine Or.inr ⟨rfail, ?_, hfail⟩
          rw [hchain']
          have hres : (seqRunAll h w st (actionId :: pre)).results =
              (run h w st actionId).result ::
                (seqRunAll h (run h w st actionId).world
                  (run h w st actionId).state pre).results := by
            simp [seqRunAll]
          rw [hres, ← hchain]
          cases htl : (runActionChain h (run h w st actionId).world
              (run h w st actionId).state rest).results with
          | nil => rw [htl] at hget; exact absurd hget (by simp)
          | cons b bs =>
            rw [htl] at hget
            rw [List.getLast?_cons_cons]
            exact hget
    · have hs' : (run h w st actionId).result.success = false :=
        Bool.not_eq_true _ ▸ (by simpa using hs)
      have hchain' : runActionChain h w st (actionId :: rest) =
          seqRunAll h w st [actionId] := by
        simp [runActionChain, seqRunAll, hs']
      refine ⟨[actionId], rest, rfl, hchain', ?_, ?_, ?_⟩
      · rw [hchain']; rfl
      · rw [hchain']
        intro r hr
        simp [seqRunAll, List.dropLast] at hr
      · refine Or.inr ⟨(run h w st actionId).result, ?_, hs'⟩
        rw [hchain']
        simp [seqRunAll]

/-- Witness for C4: in the chain `["a", "b", "c"]` with `a` succeeding and
`b` failing, exactly two results are produced and the theorem's
characterization holds. -/
theorem c4_witness :
    (runActionChain someHost worldInit c4State ["a", "b", "c"]).results.length = 2 ∧
    (∃ pre post,
      ["a", "b", "c"] = pre ++ post ∧
      runActionChain someHost worldInit c4State ["a", "b", "c"] =
        seqRunAll someHost worldInit c4State pre ∧
      (runActionChain someHost worldInit c4State ["a", "b", "c"]).results.length =
        pre.length ∧
      (∀ r ∈ (runActionChain someHost worldInit c4State ["a", "b", "c"]).results.dropLast,
        r.success = true) ∧
      (post = [] ∨
        ∃ r, (runActionChain someHost worldInit c4State ["a", "b", "c"]).results.getLast? =
            some r ∧ r.success = false)) :=
  ⟨rfl, c4_chain_short_circuits someHost worldInit c4State ["a", "b", "c"]⟩

/-- C7 (failing-input evaluation).  In the spec's end-to-end scenario —
`updateWidget` on `w1` with `label` bound to the marker over
`widgets.input1.value`, context `widgets.input1.value = "Hi"` — the
executor passes the raw marker text, braces included, to `evaluate`; a
parenthesized JavaScript expression cannot begin with a brace
(`c7Host.parseOk` reflects this SyntaxError), so the evaluation yields
`undefined`, and the widget-update callback receives
`{label: undefined}` rather than `{label: "Hi"}` even though the inner
expression alone executes to `"Hi"` on the same host and context. -/
theorem c7_raw_marker_yields_undefined :
    hasExpression "\x7b\x7b widgets.input1.value \x7d\x7d" = true ∧
    c7Host.execJS c7World.engine.context "widgets.input1.value" = .ok (.str "Hi") ∧
    (run c7Host c7World c7State "setLabel").result.success = true ∧
    (run c7Host c7World c7State "setLabel").events =
      [HostEvent.widgetUpdate (.str "w1") [("label", .undef)]] ∧
    [("label", JSValue.undef)] ≠ [("label", JSValue.str "Hi")] := by
  refine ⟨rfl, rfl, rfl, rfl, ?_⟩
  simp

/-- Membership in the deduplicated list: exactly the elements of the input
that are not in the seen-set. -/
theorem mem_dedupAux (d : String) :
    ∀ (l seen : List String), d ∈ dedupAux seen l ↔ d ∈ l ∧ d ∉ seen := by
  intro l
  induction l with
  | nil => intro seen; simp [dedupAux]
  | cons x xs ih =>
    intro seen
    by_cases hx : x ∈ seen
    · rw [show dedupAux seen (x :: xs) = dedupAux seen xs from by simp [dedupAux, hx],
        ih seen]
      constructor
      · rintro ⟨hmem, hns⟩
        exact ⟨List.mem_cons_of_mem x hmem, hns⟩
      · rintro ⟨hmem, hns⟩
        rcases List.mem_cons.mp hmem with hdx | hmem'
        · exact absurd (by rw [hdx]; exact hx) hns
        · exact ⟨hmem', hns⟩
    · rw [show dedupAux seen (x :: xs) = x :: dedupAux (x :: seen) xs from by
        simp [dedupAux, hx]]
      constructor
      · intro hmem
        rcases List.mem_cons.mp hmem with hdx | hmem'
        · subst hdx
          exact ⟨List.mem_cons_self d xs, hx⟩
        · obtain ⟨h1, h2⟩ := (ih (x :: seen)).mp hmem'
          exact ⟨List.mem_cons_of_mem x h1, fun hseen => h2 (List.mem_cons_of_mem x hseen)⟩
      · rintro ⟨hmem, hns⟩
        by_cases hdx : d = x
        · subst hdx
          exact List.mem_cons_self d _
        · rcases List.mem_cons.mp hmem with hdx' | hmem'
          · exact absurd hdx' hdx
          · refine List.mem_cons_of_mem x ((ih (x :: seen)).mpr ⟨hmem', ?_⟩)
            intro hc
            rcases List.mem_cons.mp hc with h1 | h1
            · exact hdx h1
            · exact hns h1

/-- The deduplicated list has no duplicates. -/
theorem dedupAux_nodup : ∀ (l seen : List String), (dedupAux seen l).Nodup := by
  intro l
  induction l with
  | nil => intro seen; simp [dedupAux]
  | cons x xs ih =>
    intro seen
    by_cases hx : x ∈ seen
    · rw [show dedupAux seen (x :: xs) = dedupAux seen xs from by simp [dedupAux, hx]]
      exact ih seen
    · rw [show dedupAux seen (x :: xs) = x :: dedupAux (x :: seen) xs from by
        simp [dedupAux, hx], List.nodup_cons]
      refine ⟨?_, ih (x :: seen)⟩
      intro hmem
      exact ((mem_dedupAux x xs (x :: seen)).mp hmem).2 (List.mem_cons_self x seen)

/-- Counterexample to C8 as stated: in `"actions.x + widgets.y"` the
`actions.x` reference occurs first in the text, yet `getDependencies`
returns the `widgets` reference first — the output is grouped by
namespace, not ordered by first occurrence in the text. -/
theorem c8_counterexample :
    getDependencies "actions.x + widgets.y" = ["widgets.y", "actions.x"] ∧
    getDependencies "actions.x + widgets.y" ≠ ["actions.x", "widgets.y"] := by
  exact ⟨by decide, by decide⟩

/-- Deduplication keeps first occurrences in order: the output is pairwise
strictly increasing in index of first occurrence in the scanned list. -/
theorem dedupAux_pairwise_indexOf :
    ∀ (l seen : List String),
      (dedupAux seen l).Pairwise (fun a b => l.indexOf a < l.indexOf b) := by
  intro l
  induction l with
  | nil => intro seen; simp [dedupAux]
  | cons x xs ih =>
    intro seen
    by_cases hx : x ∈ seen
    · rw [show dedupAux seen (x :: xs) = dedupAux seen xs from by simp [dedupAux, hx]]
      refine List.Pairwise.imp_of_mem ?_ (ih seen)
      intro a b ha hb hab
      have hane : x ≠ a := fun h =>
        ((mem_dedupAux a xs seen).mp ha).2 (by rw [← h]; exact hx)
      have hbne : x ≠ b := fun h =>
        ((mem_dedupAux b xs seen).mp hb).2 (by rw [← h]; exact hx)
      rw [show (x :: xs).indexOf a = (xs.indexOf a).succ from
          List.indexOf_cons_ne xs hane,
        show (x :: xs).indexOf b = (xs.indexOf b).succ from
          List.indexOf_cons_ne xs hbne]
      exact Nat.succ_lt_succ hab
    · rw [show dedupAux seen (x :: xs) = x :: dedupAux (x :: seen) xs from by
        simp [dedupAux, hx], List.pairwise_cons]
      constructor
      · intro b hb
        have hbne : x ≠ b := fun h =>
          ((mem_dedupAux b xs (x :: seen)).mp hb).2
            (by rw [← h]; exact List.mem_cons_self x seen)
        rw [List.indexOf_cons_self,
          show (x :: xs).indexOf b = (xs.indexOf b).succ from
            List.indexOf_cons_ne xs hbne]
        exact Nat.succ_pos _
      · refine List.Pairwise.imp_of_mem ?_ (ih (x :: seen))
        intro a b ha hb hab
        have hane : x ≠ a := fun h =>
          ((mem_dedupAux a xs (x :: seen)).mp ha).2
            (by rw [← h]; exact List.mem_cons_self x seen)
        have hbne : x ≠ b := fun h =>
          ((mem_dedupAux b xs (x :: seen)).mp hb).2
            (by rw [← h]; exact List.mem_cons_self x seen)
        rw [show (x :: xs).indexOf a = (xs.indexOf a).succ from
            List.indexOf_cons_ne xs hane,
          show (x :: xs).indexOf b = (xs.indexOf b).succ from
            List.indexOf_cons_ne xs hbne]
        exact Nat.succ_lt_succ hab

/-- C8 (amended).  `getDependencies` returns the deduplicated list of every
`widgets.<id>`, `actions.<id>` and `page.<id>` reference occurring
literally in the source text — no duplicates, membership exactly the
references found by the three namespace scans, and ordered by index of
first occurrence in the concatenation widgets-scan ++ actions-scan ++
page-scan (the `Pairwise` conjunct): all `widgets` references first, then
`actions`, then `page`, each group in text first-occurrence order — not by
first occurrence across namespaces; on the spec's example it returns
exactly `["widgets.a", "widgets.b"]`. -/
theorem c8_deps_grouped (e : String) :
    (getDependencies e).Nodup ∧
    (∀ d, d ∈ getDependencies e ↔
      d ∈ scanRefs "widgets." e ++ scanRefs "actions." e ++ scanRefs "page." e) ∧
    (getDependencies e).Pairwise (fun d1 d2 =>
      (scanRefs "widgets." e ++ scanRefs "actions." e ++
        scanRefs "page." e).indexOf d1 <
      (scanRefs "widgets." e ++ scanRefs "actions." e ++
        scanRefs "page." e).indexOf d2) ∧
    getDependencies "widgets.a.value + widgets.b.value" = ["widgets.a", "widgets.b"] := by
  refine ⟨dedupAux_nodup _ [], ?_, ?_, by decide⟩
  · intro d
    rw [getDependencies, mem_dedupAux]
    simp
  · rw [getDependencies]
    exact dedupAux_pairwise_indexOf _ []

/-- Witness for C8 at the counterexample input (the grouped
first-occurrence order and the spec's own example are both instances of
the amended statement). -/
theorem c8_witness :
    (getDependencies "actions.x + widgets.y").Nodup ∧
    (∀ d, d ∈ getDependencies "actions.x + widgets.y" ↔
      d ∈ scanRefs "widgets." "actions.x + widgets.y" ++
        scanRefs "actions." "actions.x + widgets.y" ++
        scanRefs "page." "actions.x + widgets.y") ∧
    (getDependencies "actions.x + widgets.y").Pairwise (fun d1 d2 =>
      (scanRefs "widgets." "actions.x + widgets.y" ++
        scanRefs "actions." "actions.x + widgets.y" ++
        scanRefs "page." "actions.x + widgets.y").indexOf d1 <
      (scanRefs "widgets." "actions.x + widgets.y" ++
        scanRefs "actions." "actions.x + widgets.y" ++
        scanRefs "page." "actions.x + widgets.y").indexOf d2) ∧
    getDependencies "widgets.a.value + widgets.b.value" = ["widgets.a", "widgets.b"] :=
  c8_deps_grouped "actions.x + widgets.y"

/-- `takeNonBrace` splits its input. -/
theorem takeNonBrace_append : ∀ l : List Char, (takeNonBrace l).1 ++ (takeNonBrace l).2 = l := by
  intro l
  induction l with
  | nil => rfl
  | cons c cs ih =>
    by_cases hc : c = '}'
    · simp [takeNonBrace, hc]
    · simp [takeNonBrace, hc, ih]

/-- No closing brace occurs in the taken run. -/
theorem takeNonBrace_no_brace : ∀ (l : List Char), ∀ c ∈ (takeNonBrace l).1, c ≠ '}' := by
  intro l
  induction l with
  | nil => intro c hc; simp [takeNonBrace] at hc
  | cons a as ih =>
    intro c hc
    by_cases ha : a = '}'
    · simp [takeNonBrace, ha] at hc
    · simp only [takeNonBrace, ha, if_neg, ite_false, List.mem_cons] at hc
      rcases hc with hca | hca
      · rw [hca]; exact ha
      · exact ih c hca

/-- Inversion of a marker match: the input starts with the literal marker
`\x7b\x7b<w>\x7d\x7d` for a nonempty inner run `w` free of closing braces,
and the remainder is what follows the match. -/
theorem matchMarkerAt_some {s w r' : List Char} (hm : matchMarkerAt s = some (w, r')) :
    s = '{' :: '{' :: (w ++ '}' :: '}' :: r') ∧ w ≠ [] ∧ ∀ c ∈ w, c ≠ '}' := by
  match s with
  | [] => exact absurd hm (by simp [matchMarkerAt])
  | [c1] => exact absurd hm (by simp [matchMarkerAt])
  | c1 :: c2 :: rest =>
    by_cases h12 : c1 = '{' ∧ c2 = '{'
    · by_cases hw : (takeNonBrace rest).1 = []
      · simp [matchMarkerAt, h12, hw] at hm
      · by_cases ht : (takeNonBrace rest).2.take 2 = ['}', '}']
        · rw [show matchMarkerAt (c1 :: c2 :: rest) =
              some ((takeNonBrace rest).1, (takeNonBrace rest).2.drop 2) from by
            simp [matchMarkerAt, h12.1, h12.2, hw, ht]] at hm
          have hpair := Option.some.inj hm
          have hweq : (takeNonBrace rest).1 = w := congrArg Prod.fst hpair
          have hreq : (takeNonBrace rest).2.drop 2 = r' := congrArg Prod.snd hpair
          obtain ⟨h1, h2⟩ := h12
          subst h1
          subst h2
          refine ⟨?_, fun hweq' => hw (by rw [hweq, hweq']),
            fun c hc => takeNonBrace_no_brace rest c (by rw [hweq]; exact hc)⟩
          have happ := takeNonBrace_append rest
          have hr2 : (takeNonBrace rest).2 = '}' :: '}' :: (takeNonBrace rest).2.drop 2 := by
            conv_lhs => rw [← List.take_append_drop 2 (takeNonBrace rest).2]
            rw [ht]
            rfl
          have hrest : rest = w ++ '}' :: '}' :: r' := by
            rw [← happ, hweq, hr2, hreq]
          rw [hrest]
        · simp [matchMarkerAt, h12.1, h12.2, hw, ht] at hm
    · simp [matchMarkerAt, h12] at hm

/-- The marker test is positive exactly when extraction is nonempty
(lock-step recursion over the same scan). -/
theorem hasAux_iff_extractAux :
    ∀ (fuel : Nat) (s : List Char), hasAux fuel s = true ↔ extractAux fuel s ≠ [] := by
  intro fuel
  induction fuel with
  | zero => intro s; simp [hasAux, extractAux]
  | succ n ih =>
    intro s
    cases s with
    | nil => simp [hasAux, extractAux]
    | cons c rest =>
      cases hm : matchMarkerAt (c :: rest) with
      | some p =>
        rcases p with ⟨w, r'⟩
        simp [hasAux, extractAux, hm]
      | none => simp [hasAux, extractAux, hm, ih rest]

/-- Every extracted element is the trimmed inner source of a literal
`\x7b\x7b ... \x7d\x7d` marker occurring in the scanned text. -/
theorem extractAux_mem :
    ∀ (fuel : Nat) (s : List Char) (x : String), x ∈ extractAux fuel s →
      ∃ w, w ≠ [] ∧ (∀ c ∈ w, c ≠ '}') ∧
        ('{' :: '{' :: (w ++ ['}', '}'])) <:+: s ∧ x = strTrim (String.mk w) := by
  intro fuel
  induction fuel with
  | zero => intro s x hx; simp [extractAux] at hx
  | succ n ih =>
    intro s x hx
    cases s with
    | nil => simp [extractAux] at hx
    | cons c rest =>
      cases hm : matchMarkerAt (c :: rest) with
      | none =>
        rw [show extractAux (n + 1) (c :: rest) = extractAux n rest from by
          simp [extractAux, hm]] at hx
        obtain ⟨w, hw1, hw2, hinf, hx'⟩ := ih rest x hx
        exact ⟨w, hw1, hw2, hinf.trans (List.suffix_cons c rest).isInfix, hx'⟩
      | some p =>
        rcases p with ⟨w0, r'⟩
        obtain ⟨hshape, hwne, hwnb⟩ := matchMarkerAt_some hm
        rw [show extractAux (n + 1) (c :: rest) =
            strTrim (String.mk w0) :: extractAux n r' from by simp [extractAux, hm]] at hx
        rcases List.mem_cons.mp hx with hx' | hx'
        · refine ⟨w0, hwne, hwnb, ⟨[], r', ?_⟩, hx'⟩
          rw [hshape]
          simp
        · obtain ⟨w, hw1, hw2, hinf, hx''⟩ := ih r' x hx'
          refine ⟨w, hw1, hw2, ?_, hx''⟩
          have hsuf : r' <:+ c :: rest := ⟨'{' :: '{' :: (w0 ++ ['}', '}']), by
            rw [hshape]; simp⟩
          exact hinf.trans hsuf.isInfix

/-- C10.  `hasExpression` is positive exactly when `extractExpressions` is
nonempty, and every extracted element is the whitespace-trimmed inner
source of a literal expression marker occurring in the text. -/
theorem c10_has_iff_extract (t : String) :
    (hasExpression t = true ↔ extractExpressions t ≠ []) ∧
    ∀ x ∈ extractExpressions t, ∃ w : List Char, w ≠ [] ∧ (∀ c ∈ w, c ≠ '}') ∧
      ('{' :: '{' :: (w ++ ['}', '}'])) <:+: t.data ∧ x = strTrim (String.mk w) :=
  ⟨hasAux_iff_extractAux t.data.length t.data,
    fun x hx => extractAux_mem t.data.length t.data x hx⟩

/-- Witness for C10 at the template `"a \x7b\x7b b \x7d\x7d c"`, whose
single extracted expression is `"b"`. -/
theorem c10_witness :
    extractExpressions "a \x7b\x7b b \x7d\x7d c" = ["b"] ∧
    hasExpression "a \x7b\x7b b \x7d\x7d c" = true ∧
    ("b" ∈ extractExpressions "a \x7b\x7b b \x7d\x7d c" ∧
      ∃ w : List Char, w ≠ [] ∧ (∀ c ∈ w, c ≠ '}') ∧
        ('{' :: '{' :: (w ++ ['}', '}'])) <:+: ("a \x7b\x7b b \x7d\x7d c" : String).data ∧
        "b" = strTrim (String.mk w)) :=
  ⟨by decide, by decide,
    by decide,
    (c10_has_iff_extract "a \x7b\x7b b \x7d\x7d c").2 "b" (by decide)⟩
